import Mathlib

/-
Verification of the gosoup traversal library against its design document.

The Go sources are embedded shallowly:

* The DOM tree (gosoup.Node, a pointer structure with Parent / FirstChild /
  LastChild / PrevSibling / NextSibling links) is represented as an inductive
  tree whose `children` field is the list of nodes on the sibling chain from
  FirstChild to LastChild.  The Go loop
  `for child := node.FirstChild; child != nil; child = child.NextSibling`
  is exactly a left-to-right walk of that list.
* A NodeIterator's Nodes channel delivers nodes one by one, in order, and is
  closed by the producer when the sequence is exhausted; the full sequence a
  consumer can read from a stage is modelled as a `List Node`.  The Filter and
  Map stages each run a goroutine that ranges over the upstream channel in
  order and forwards (respectively transforms) elements in order, so they are
  modelled as `List.filter` and `List.map` on the delivered sequence.
* The exit channel (capacity 1) used for cancellation is modelled explicitly
  where a claim is about cancellation: for the traversal engine by a budget of
  select-checks that still take the `default` branch before the cancellation
  signal becomes observable, and for Close() by the number of buffered signals
  in the one-slot channel.
* Panics are modelled as `Option`/`Except` error results; Go `int` counters
  are modelled as `Int`; machine overflow is irrelevant at the sizes involved.
-/

/-- NodeType from the source (same constructors and order as
golang.org/x/net/html.NodeType; the zero value is ErrorNode). -/
inductive NodeType where
  | ErrorNode
  | TextNode
  | DocumentNode
  | ElementNode
  | CommentNode
  | DoctypeNode
deriving DecidableEq, BEq

/-- Attribute from the source (gosoup.Attribute = html.Attribute): Namespace,
Key, Val strings.  The Namespace field is named `nspace` here.  The zero value
is the all-empty attribute. -/
structure Attribute where
  nspace : String
  key : String
  val : String
deriving DecidableEq, BEq

/-- Node from the source.  The five link pointers are represented by the
`children` list (the FirstChild → NextSibling chain); Parent and the sibling
back-pointers carry no extra information for a well-formed tree and are not
needed by any claim.  DataAtom (an atom.Atom, an integer code) is a Nat. -/
inductive Node where
  | mk (typ : NodeType) (dataAtom : Nat) (data : String) (nspace : String)
       (attrs : List Attribute) (children : List Node)

def Node.typ : Node → NodeType
  | .mk t _ _ _ _ _ => t

def Node.dataAtom : Node → Nat
  | .mk _ da _ _ _ _ => da

def Node.data : Node → String
  | .mk _ _ d _ _ _ => d

def Node.nspace : Node → String
  | .mk _ _ _ ns _ _ => ns

def Node.attrs : Node → List Attribute
  | .mk _ _ _ _ as _ => as

def Node.children : Node → List Node
  | .mk _ _ _ _ _ cs => cs

/-- Character membership in the cutset `blank = " \t\n\r"` of node.go. -/
def inBlankCutset (c : Char) : Bool :=
  c == ' ' || c == '\t' || c == '\n' || c == '\r'

/-- Go strings.Trim(s, cutset) on the character list: drop the longest run of
cutset characters from the front, then from the back. -/
def trimChars (l : List Char) : List Char :=
  ((l.dropWhile inBlankCutset).reverse.dropWhile inBlankCutset).reverse

/-- Go strings.Trim(s, " \t\n\r") as used by CleanData and IsBlankText. -/
def goTrim (s : String) : String :=
  String.mk (trimChars s.data)

/-- Go strings.Contains on character lists: true iff sub occurs in s. -/
def containsChars : List Char → List Char → Bool
  | [], sub => sub.isEmpty
  | c :: rest, sub => sub.isPrefixOf (c :: rest) || containsChars rest sub

/-- Go strings.Contains(s, sub). -/
def goContains (s sub : String) : Bool :=
  containsChars s.data sub.data

/-- The loop shared by HasAttr: scan the attribute list, return true at the
first attribute whose Key equals attrKey. -/
def hasAttrGo : List Attribute → String → Bool
  | [], _ => false
  | a :: rest, attrKey => if a.key == attrKey then true else hasAttrGo rest attrKey

/-- The loop shared by Attr and AttrOrDefault: scan the attribute list and
return the Val of the first attribute whose Key equals attrKey.  `none` is the
fall-through (Attr panics there; AttrOrDefault substitutes its default). -/
def attrGo : List Attribute → String → Option String
  | [], _ => none
  | a :: rest, attrKey => if a.key == attrKey then some a.val else attrGo rest attrKey

/-- Node.HasAttr from node.go. -/
def Node.HasAttr (node : Node) (attrKey : String) : Bool :=
  hasAttrGo node.attrs attrKey

/-- Node.Attr from node.go.  The Go function returns the first matching value
and panics when there is none; the panic is modelled as `none`. -/
def Node.Attr (node : Node) (attrKey : String) : Option String :=
  attrGo node.attrs attrKey

/-- Node.AttrOrDefault from node.go: first matching value, defaultValue when
the scan falls through. -/
def Node.AttrOrDefault (node : Node) (attrKey defaultValue : String) : String :=
  match attrGo node.attrs attrKey with
  | some v => v
  | none => defaultValue

/-- Node.AttrValueContains from node.go:
`node.HasAttr(attrKey) && strings.Contains(node.Attr(attrKey), match)`.
The && short-circuits, so Attr is only evaluated when HasAttr holds and its
panic branch is unreachable; the `getD ""` default is that unreachable branch. -/
def Node.AttrValueContains (node : Node) (attrKey matchStr : String) : Bool :=
  node.HasAttr attrKey && goContains ((node.Attr attrKey).getD "") matchStr

/-- Node.IsTag from node.go. -/
def Node.IsTag (node : Node) (name : String) : Bool :=
  node.typ == NodeType.ElementNode && node.data == name

/-- Node.CleanData from node.go: trim the Data payload when the node is a
TextNode, leave every other node unchanged.  (In Go this mutates the node and
returns the same pointer; here it returns the updated value.) -/
def Node.CleanData : Node → Node
  | .mk t da d ns as cs =>
      if t == NodeType.TextNode then .mk t da (goTrim d) ns as cs
      else .mk t da d ns as cs

/-- Node.IsBlankText from node.go: a TextNode whose Data trims to "". -/
def Node.IsBlankText (node : Node) : Bool :=
  node.typ == NodeType.TextNode && goTrim node.data == ""

/-- predicateNotBlank from gosoup.go. -/
def predicateNotBlank (n : Node) : Bool :=
  !n.IsBlankText

/-- clean from gosoup.go. -/
def clean (n : Node) : Node :=
  n.CleanData

mutual

/-- recIterateOnDescendants from iterators.go, in the run where the exit
channel never receives a signal: every select takes the default branch, so the
loop sends each child and, when recursive, the child's own descendants, before
moving to the next sibling.  The list is the sequence sent on `out`. -/
def Node.recIterateOnDescendants (recursive : Bool) : Node → List Node
  | .mk _ _ _ _ _ cs => recIterateSiblings recursive cs

/-- The sibling-chain loop of recIterateOnDescendants (exit never fires). -/
def recIterateSiblings (recursive : Bool) : List Node → List Node
  | [] => []
  | child :: rest =>
      child ::
        ((if recursive then Node.recIterateOnDescendants recursive child else []) ++
          recIterateSiblings recursive rest)

end

mutual

/-- recIterateOnDescendants from iterators.go with the cancellation protocol
made explicit.  The producer goroutine performs one select per loop iteration;
`budget` is the number of selects that still take the default branch before the
consumer's exit signal becomes observable.  When a select observes the signal
(budget 0), the function re-sends it (`exit <- true`) so that every frame of
the recursive stack also observes it, and returns; this is modelled by
returning budget 0 to the enclosing frames.  The result is the sequence sent
on `out`, paired with the remaining budget. -/
def Node.recIterateOnDescendantsExit (recursive : Bool) : Node → Nat → List Node × Nat
  | .mk _ _ _ _ _ cs, budget => recIterateSiblingsExit recursive cs budget

/-- The sibling-chain loop of recIterateOnDescendants with cancellation. -/
def recIterateSiblingsExit (recursive : Bool) : List Node → Nat → List Node × Nat
  | [], budget => ([], budget)
  | _ :: _, 0 => ([], 0)
  | child :: rest, budget + 1 =>
      let inner :=
        if recursive then Node.recIterateOnDescendantsExit recursive child budget
        else ([], budget)
      let after := recIterateSiblingsExit recursive rest inner.2
      (child :: (inner.1 ++ after.1), after.2)

end

/-- Node.TreeIterator from iterators.go.  The Go receiver is a pointer that may
be nil, modelled as `Option Node`; the nil check panics with the message below,
modelled as `Except.error`.  For a non-nil node the iterator's Nodes channel
carries exactly the recIterateOnDescendants sequence. -/
def Node.TreeIterator : Option Node → Bool → Except String (List Node)
  | none, _ => .error "iterateOnDescendants: null input node"
  | some node, recursive => .ok (node.recIterateOnDescendants recursive)

/-- Node.Children from gosoup.go:
`node.TreeIterator(false).Filter(predicateNotBlank).Map(clean)`.
The Filter stage forwards, in order, exactly the upstream nodes satisfying the
predicate; the Map stage applies its function to each forwarded node in order. -/
def Node.Children (node : Node) : List Node :=
  ((node.recIterateOnDescendants false).filter predicateNotBlank).map clean

/-- Node.Descendants from gosoup.go:
`node.TreeIterator(true).Filter(predicateNotBlank).Map(clean)`. -/
def Node.Descendants (node : Node) : List Node :=
  ((node.recIterateOnDescendants true).filter predicateNotBlank).map clean

/-- Node.ChildrenMatching from gosoup.go. -/
def Node.ChildrenMatching (node : Node) (predicate : Node → Bool) : List Node :=
  (node.Children).filter predicate

/-- Node.DescendantsMatching from gosoup.go. -/
def Node.DescendantsMatching (node : Node) (predicate : Node → Bool) : List Node :=
  (node.Descendants).filter predicate

/-- predicateIsTag from gosoup.go. -/
def predicateIsTag (tagName : String) : Node → Bool :=
  fun node => node.IsTag tagName

/-- Node.DescendantsByTag from gosoup.go. -/
def Node.DescendantsByTag (node : Node) (tagName : String) : List Node :=
  node.DescendantsMatching (predicateIsTag tagName)

/-- predicateAttrValueContains from gosoup.go. -/
def predicateAttrValueContains (attrKey matchStr : String) : Node → Bool :=
  fun node => node.AttrValueContains attrKey matchStr

/-- Node.DescendantsByAttrValueContaining from gosoup.go. -/
def Node.DescendantsByAttrValueContaining (node : Node) (attrKey matchStr : String) : List Node :=
  node.DescendantsMatching (predicateAttrValueContains attrKey matchStr)

/-- NodeIterator.First from iterators.go: the first delivered node, or nil
(none) when the channel is closed without delivering any. -/
def NodeIterator.First (delivered : List Node) : Option Node :=
  delivered.head?

/-- NodeIterator.Limit from iterators.go.  The goroutine ranges over the
upstream sequence; for each node it sends the node, increments count, and only
then tests `count > max` — closing the upstream iterator and breaking when the
test fires.  `max` and `count` are Go ints, modelled as Int.  The Bool records
whether `i.Close()` was called (cancellation issued upstream). -/
def NodeIterator.LimitRun (max : Int) : List Node → Int → List Node × Bool
  | [], _ => ([], false)
  | node :: rest, count =>
      if count + 1 > max then ([node], true)
      else
        let r := NodeIterator.LimitRun max rest (count + 1)
        (node :: r.1, r.2)

/-- The state of a NodeIterator handle held by a caller: its `closed` field.
The Nodes and exit channels are shared by reference and modelled separately. -/
structure NodeIteratorHandle where
  closed : Bool

/-- The exit channel created by TreeIterator: `make(chan interface{}, 1)`.
`exitBuffered` is the number of signals currently buffered; capacity is 1, so
a send blocks unless exitBuffered < 1. -/
structure ExitChannel where
  exitBuffered : Nat

/-- NodeIterator.Close from iterators.go.  The method has a value receiver: it
reads the caller's `closed` field from a copy of the struct, and the
`i.closed = true` assignment mutates only that copy, so the caller's handle is
unchanged after the call.  When the guard passes, `i.exit <- true` is a send on
the shared one-slot channel: it buffers a signal when the slot is free and
blocks forever when the slot is full (`none`).  The result is the channel
state after the call. -/
def NodeIterator.Close (i : NodeIteratorHandle) (ch : ExitChannel) : Option ExitChannel :=
  if !i.closed then
    if ch.exitBuffered < 1 then some ⟨ch.exitBuffered + 1⟩ else none
  else some ch

/-- GetDocContentType from gosoup.go, taken at the document root.  (The Go
function first replaces its argument by node.Root(), the fixpoint of the
Parent chain; at the root itself Root() is the identity, and the claims
quantify over documents, so the embedding takes the root directly.)
meta.Attr("content") cannot panic on the success path because meta was
selected by predicateAttrValueContains, which requires HasAttr; `getD ""` is
that unreachable branch. -/
def GetDocContentType (root : Node) : Except String String :=
  match NodeIterator.First (root.DescendantsByTag "head") with
  | none => .error "GetDocCharset: head not found"
  | some headNode =>
      match NodeIterator.First (headNode.DescendantsByAttrValueContaining "content" "charset=") with
      | none => .error "GetDocCharset: meta not found"
      | some meta => .ok ((meta.Attr "content").getD "")

/-- Go strings.Split on character lists: scan left to right; at the leftmost
occurrence of sep emit the accumulated field and continue past the separator.
The fuel argument (instantiated with the length of the scanned list) only
makes the recursion structural; it cannot run out when sep is nonempty, as at
every call site here. -/
def splitFuel (sep : List Char) : Nat → List Char → List Char → List (List Char)
  | _, [], acc => [acc.reverse]
  | 0, s, acc => [acc.reverse ++ s]
  | fuel + 1, c :: rest, acc =>
      if sep.isPrefixOf (c :: rest) then
        acc.reverse :: splitFuel sep fuel (List.drop sep.length (c :: rest)) []
      else splitFuel sep fuel rest (c :: acc)

/-- Go strings.Split(s, sep) for nonempty sep: the fields of s between the
non-overlapping occurrences of sep, in order; never the empty list. -/
def goSplit (s sep : String) : List String :=
  (splitFuel sep.data s.data.length s.data []).map String.mk

/-- The parsing tail of GetDocCharset:
`strings.Split(content, "charset=")[1]`, then `strings.Split(..., ";")[0]`,
then `strings.Split(..., " ")[0]`.  Go's Split never returns an empty slice,
so index 0 is `headD ""` with an unreachable default; index 1 exists exactly
when content contains "charset=", which holds at every reachable call (the
meta node was selected for containing it), and is modelled as
`(drop 1).headD ""`. -/
def parseCharsetGo (content : String) : String :=
  let charsetWithBullshit := ((goSplit content "charset=").drop 1).headD ""
  let charsetWithoutBullshit := (goSplit charsetWithBullshit ";").headD ""
  (goSplit charsetWithoutBullshit " ").headD ""

/-- GetDocCharset from gosoup.go, taken at the document root like
GetDocContentType. -/
def GetDocCharset (root : Node) : Except String String :=
  match GetDocContentType root with
  | .error e => .error e
  | .ok content => .ok (parseCharsetGo content)

mutual

/-- Modelled from the spec: document pre-order — "each node before its
children, children before following siblings, left to right" (§4.1).  Used as
the independent order reference the traversal is compared against. -/
def specPreOrder : Node → List Node
  | .mk t da d ns as cs => .mk t da d ns as cs :: specPreOrderList cs

/-- Modelled from the spec: pre-order of a sibling list, left to right. -/
def specPreOrderList : List Node → List Node
  | [] => []
  | c :: rest => specPreOrder c ++ specPreOrderList rest

end

mutual

/-- Structural equality test on nodes (Go compares node pointers; in the value
embedding two tree positions are identified exactly when their whole subtrees
coincide). -/
def Node.beq : Node → Node → Bool
  | .mk t1 a1 d1 n1 at1 c1, .mk t2 a2 d2 n2 at2 c2 =>
      t1 == t2 && a1 == a2 && d1 == d2 && n1 == n2 && at1 == at2 && nodeListBeq c1 c2

/-- Structural equality test on node lists. -/
def nodeListBeq : List Node → List Node → Bool
  | [], [] => true
  | c :: cs, d :: ds => Node.beq c d && nodeListBeq cs ds
  | _, _ => false

end

/-- Number of elements of a list equal (Node.beq) to x. -/
def countNode (x : Node) : List Node → Nat
  | [] => 0
  | a :: l => (if Node.beq a x then 1 else 0) + countNode x l

mutual

/-- Number of tree positions strictly below n (reachable from n by child and
sibling links) that hold the value x. -/
def occNode (x : Node) : Node → Nat
  | .mk _ _ _ _ _ cs => occList x cs

/-- Number of positions holding x in the subtrees rooted at a sibling list,
the siblings themselves included. -/
def occList (x : Node) : List Node → Nat
  | [] => 0
  | c :: rest => (if Node.beq c x then 1 else 0) + occNode x c + occList x rest

end

/-- html.Node from golang.org/x/net/html, the input type of WrapTree: the same
shape as gosoup.Node (the Attr field is the attribute list). -/
inductive HtmlNode where
  | mk (typ : NodeType) (dataAtom : Nat) (data : String) (nspace : String)
       (attr : List Attribute) (children : List HtmlNode)

def HtmlNode.typ : HtmlNode → NodeType
  | .mk t _ _ _ _ _ => t

def HtmlNode.dataAtom : HtmlNode → Nat
  | .mk _ da _ _ _ _ => da

def HtmlNode.data : HtmlNode → String
  | .mk _ _ d _ _ _ => d

def HtmlNode.nspace : HtmlNode → String
  | .mk _ _ _ ns _ _ => ns

def HtmlNode.attr : HtmlNode → List Attribute
  | .mk _ _ _ _ as _ => as

def HtmlNode.children : HtmlNode → List HtmlNode
  | .mk _ _ _ _ _ cs => cs

mutual

/-- WrapTree from iterators.go.  Go allocates `n := new(Node)` — every field at
its zero value — then assigns n.DataAtom, n.Data, n.Namespace from hnode, and
builds n.Attrs as `make([]Attribute, len(hnode.Attr))` (a slice already holding
len zero-valued attributes) followed by one append per source attribute; the
Type field is never assigned and keeps the zero value ErrorNode.  The child
loop wraps hnode's children and links them in order. -/
def WrapTree : HtmlNode → Node
  | .mk _ hda hd hns hattrs hcs =>
      .mk NodeType.ErrorNode hda hd hns
        (List.replicate hattrs.length ⟨"", "", ""⟩ ++ hattrs)
        (wrapTreeChildren hcs)

/-- The child-linking loop of WrapTree: first child, then each next sibling,
appended in order. -/
def wrapTreeChildren : List HtmlNode → List Node
  | [] => []
  | h :: rest => WrapTree h :: wrapTreeChildren rest

end

/-- A text node whose payload is the blank string " " (used as the concrete
input on which Children/Descendants drop a reachable node). -/
def blankTextNode : Node :=
  .mk NodeType.TextNode 0 " " "" [] []

/-- A document root whose only child is a blank text node. -/
def blankOnlyRoot : Node :=
  .mk NodeType.DocumentNode 0 "" "" [] [blankTextNode]

def pElem : Node :=
  .mk NodeType.ElementNode 0 "p" "" [] []

/-- A root with a blank text child followed by an element child. -/
def mixedRoot : Node :=
  .mk NodeType.ElementNode 0 "body" "" [] [blankTextNode, pElem]

/-- The meta element carrying the charset declaration in the sample document. -/
def sampleMeta : Node :=
  .mk NodeType.ElementNode 0 "meta" ""
    [⟨"", "content", "text/html; charset=utf-8"⟩] []

/-- The head element of the sample document. -/
def sampleHead : Node :=
  .mk NodeType.ElementNode 0 "head" "" [] [sampleMeta]

/-- A sample document root: an html element containing a head with a charset
meta element. -/
def sampleDoc : Node :=
  .mk NodeType.ElementNode 0 "html" "" [] [sampleHead]

/-- An html.Node input for WrapTree: a div element with one id attribute. -/
def sampleHtmlDiv : HtmlNode :=
  .mk NodeType.ElementNode 0 "div" "" [⟨"", "id", "x"⟩] []

theorem dropWhile_self_idem {α : Type} (p : α → Bool) (l : List α) :
    (l.dropWhile p).dropWhile p = l.dropWhile p := by
  induction l with
  | nil => rfl
  | cons c t ih =>
      cases hp : p c with
      | true => simpa [List.dropWhile_cons, hp] using ih
      | false => simp [List.dropWhile_cons, hp]

theorem dropWhile_head_false {α : Type} (p : α → Bool) :
    ∀ (l : List α) (a : α) (t : List α), l.dropWhile p = a :: t → p a = false := by
  intro l
  induction l with
  | nil => intro a t h; cases h
  | cons c r ih =>
      intro a t h
      cases hp : p c with
      | true =>
          rw [List.dropWhile_cons, if_pos (by simp [hp])] at h
          exact ih a t h
      | false =>
          rw [List.dropWhile_cons, if_neg (by simp [hp])] at h
          cases h
          exact hp

theorem trimChars_idem (l : List Char) : trimChars (trimChars l) = trimChars l := by
  unfold trimChars
  have hA : ∀ m : List Char,
      ((m.dropWhile inBlankCutset).reverse.dropWhile inBlankCutset).reverse.dropWhile inBlankCutset
        = ((m.dropWhile inBlankCutset).reverse.dropWhile inBlankCutset).reverse := by
    intro m
    have hpre : ((m.dropWhile inBlankCutset).reverse.dropWhile inBlankCutset).reverse
        <+: m.dropWhile inBlankCutset := by
      have hsuf : (m.dropWhile inBlankCutset).reverse.dropWhile inBlankCutset
          <:+ (m.dropWhile inBlankCutset).reverse := List.dropWhile_suffix _
      have := List.reverse_prefix.mpr hsuf
      simpa using this
    cases hr : ((m.dropWhile inBlankCutset).reverse.dropWhile inBlankCutset).reverse with
    | nil => rfl
    | cons a t =>
        obtain ⟨s, hs⟩ := hpre
        rw [hr] at hs
        have hfalse : inBlankCutset a = false :=
          dropWhile_head_false inBlankCutset m a (t ++ s) (by rw [← hs]; rfl)
        simp [List.dropWhile_cons, hfalse]
  rw [hA l, List.reverse_reverse, dropWhile_self_idem]

theorem goTrim_idem (s : String) : goTrim (goTrim s) = goTrim s :=
  congrArg String.mk (trimChars_idem s.data)

/-- C8: text-payload normalization is idempotent — applying CleanData twice
yields the same node as applying it once, and trimming an already-trimmed
payload is a no-op. -/
theorem cleanData_idempotent (n : Node) :
    (n.CleanData).CleanData = n.CleanData ∧ goTrim (goTrim n.data) = goTrim n.data := by
  constructor
  · cases n with
    | mk t da d ns as cs =>
        cases t
        case TextNode =>
          show Node.mk NodeType.TextNode da (goTrim (goTrim d)) ns as cs
              = Node.mk NodeType.TextNode da (goTrim d) ns as cs
          rw [goTrim_idem]
        all_goals rfl
  · exact goTrim_idem n.data

theorem attrGo_spec (l : List Attribute) (k : String) :
    (hasAttrGo l k = true → ∃ v, attrGo l k = some v) ∧
    (hasAttrGo l k = false → attrGo l k = none) := by
  induction l with
  | nil => simp [hasAttrGo, attrGo]
  | cons a rest ih =>
      cases hk : a.key == k with
      | true => simp [hasAttrGo, attrGo, hk]
      | false => simpa [hasAttrGo, attrGo, hk] using ih

/-- C7: when the attribute is present both lookups agree on its value; when it
is absent the strict form panics (none) while the defaulting form returns the
caller-supplied fallback. -/
theorem attr_strict_vs_default (n : Node) (k d : String) :
    (n.HasAttr k = true → ∃ v, n.Attr k = some v ∧ n.AttrOrDefault k d = v) ∧
    (n.HasAttr k = false → n.Attr k = none ∧ n.AttrOrDefault k d = d) := by
  constructor
  · intro h
    obtain ⟨v, hv⟩ := (attrGo_spec n.attrs k).1 h
    refine ⟨v, hv, ?_⟩
    unfold Node.AttrOrDefault
    rw [hv]
  · intro h
    have hnone := (attrGo_spec n.attrs k).2 h
    refine ⟨hnone, ?_⟩
    unfold Node.AttrOrDefault
    rw [hnone]

/-- Witness for C7 at a concrete node: sampleMeta has a content attribute and
no missing attribute. -/
theorem attr_strict_vs_default_witness :
    sampleMeta.Attr "content" = some "text/html; charset=utf-8" ∧
    sampleMeta.AttrOrDefault "content" "fallback" = "text/html; charset=utf-8" ∧
    sampleMeta.Attr "missing" = none ∧
    sampleMeta.AttrOrDefault "missing" "fallback" = "fallback" := by
  obtain ⟨v, hv1, hv2⟩ := (attr_strict_vs_default sampleMeta "content" "fallback").1 rfl
  obtain ⟨h1, h2⟩ := (attr_strict_vs_default sampleMeta "missing" "fallback").2 rfl
  have hv : v = "text/html; charset=utf-8" := by
    have h : some v = some "text/html; charset=utf-8" := hv1.symm.trans rfl
    exact Option.some.inj h
  exact ⟨by rw [hv1, hv], by rw [hv2, hv], h1, h2⟩

/-- C5 is false on the code: Close() has a value receiver, so the closed flag
set by the first call is discarded.  From a fresh iterator (exit buffer empty,
handle not closed) the first Close buffers the signal; the second call still
sees closed = false on the caller's unchanged handle and sends again on the
full one-slot buffer, blocking forever (none) — not the same observable effect
as a single call. -/
theorem close_not_idempotent :
    NodeIterator.Close ⟨false⟩ ⟨0⟩ = some ⟨1⟩ ∧
    NodeIterator.Close ⟨false⟩ ⟨1⟩ = none := ⟨rfl, rfl⟩

/-- C6: TreeIterator on a nil root panics with the InvalidArgument message and
produces no stream; on any non-nil root it returns the traversal stream. -/
theorem treeIterator_null_root :
    Node.TreeIterator none true = .error "iterateOnDescendants: null input node" ∧
    Node.TreeIterator none false = .error "iterateOnDescendants: null input node" ∧
    ∀ (node : Node) (recursive : Bool),
      Node.TreeIterator (some node) recursive = .ok (node.recIterateOnDescendants recursive) :=
  ⟨rfl, rfl, fun _ _ => rfl⟩

/-- C1 is false on the code: Limit sends each node before testing
`count > max`, so on a stream of three nodes Limit(1) delivers two nodes (not
exactly one) before issuing cancellation upstream. -/
theorem limit_yields_n_plus_one :
    NodeIterator.LimitRun 1 [sampleHead, sampleMeta, pElem] 0 = ([sampleHead, sampleMeta], true) ∧
    (NodeIterator.LimitRun 1 [sampleHead, sampleMeta, pElem] 0).1.length = 2 := ⟨rfl, rfl⟩

/-- C10 is false on the code: WrapTree never assigns the Type field (the wrap
of an ElementNode has Type ErrorNode) and builds Attrs as make-then-append,
prefixing the copied attributes with len zero-valued ones; children are wrapped
in order. -/
theorem wrapTree_not_equivalent :
    sampleHtmlDiv.typ = NodeType.ElementNode ∧
    (WrapTree sampleHtmlDiv).typ = NodeType.ErrorNode ∧
    (WrapTree sampleHtmlDiv).typ ≠ sampleHtmlDiv.typ ∧
    sampleHtmlDiv.attr = [⟨"", "id", "x"⟩] ∧
    (WrapTree sampleHtmlDiv).attrs = [⟨"", "", ""⟩, ⟨"", "id", "x"⟩] ∧
    (WrapTree sampleHtmlDiv).attrs ≠ sampleHtmlDiv.attr ∧
    (WrapTree sampleHtmlDiv).children = [] := by
  refine ⟨rfl, rfl, ?_, rfl, rfl, ?_, rfl⟩ <;> decide

theorem specPreOrder_eq_cons (n : Node) : specPreOrder n = n :: specPreOrderList n.children := by
  cases n with
  | mk t da d ns as cs => rfl

mutual

theorem recDesc_true_spec : ∀ n : Node, Node.recIterateOnDescendants true n = specPreOrderList n.children
  | .mk _ _ _ _ _ cs => recSiblings_true_spec cs

theorem recSiblings_true_spec : ∀ cs : List Node, recIterateSiblings true cs = specPreOrderList cs
  | [] => rfl
  | c :: rest => by
      show c :: (Node.recIterateOnDescendants true c ++ recIterateSiblings true rest)
          = specPreOrder c ++ specPreOrderList rest
      rw [recDesc_true_spec c, recSiblings_true_spec rest, specPreOrder_eq_cons, List.cons_append]

end

theorem countNode_append (x : Node) (l1 l2 : List Node) :
    countNode x (l1 ++ l2) = countNode x l1 + countNode x l2 := by
  induction l1 with
  | nil => simp [countNode]
  | cons a l ih => simp [countNode, ih, Nat.add_assoc]

mutual

theorem countNode_recDesc (x : Node) : ∀ n : Node, countNode x (Node.recIterateOnDescendants true n) = occNode x n
  | .mk _ _ _ _ _ cs => countNode_recSiblings x cs

theorem countNode_recSiblings (x : Node) : ∀ cs : List Node, countNode x (recIterateSiblings true cs) = occList x cs
  | [] => rfl
  | c :: rest => by
      show countNode x (c :: (Node.recIterateOnDescendants true c ++ recIterateSiblings true rest))
          = (if Node.beq c x then 1 else 0) + occNode x c + occList x rest
      rw [countNode, countNode_append, countNode_recDesc x c, countNode_recSiblings x rest,
        Nat.add_assoc]

end

/-- C2, amended: Descendants(r) yields, in document pre-order, exactly the
nodes reachable from r that are not whitespace-only text nodes, with text
payloads trimmed at yield; the underlying traversal yields every reachable
tree position exactly once (the multiplicity of every value in the emitted
sequence equals its number of positions below r). -/
theorem descendants_amended (r : Node) :
    Node.Descendants r = ((specPreOrder r).tail.filter predicateNotBlank).map clean ∧
    ∀ x : Node, countNode x (Node.recIterateOnDescendants true r) = occNode x r := by
  constructor
  · unfold Node.Descendants
    rw [recDesc_true_spec, specPreOrder_eq_cons, List.tail_cons]
  · intro x
    exact countNode_recDesc x r

/-- Counterexample to C2 as stated: a blank text node is reachable from the
root (it is its only child, and the raw traversal emits it), yet Descendants
yields nothing — the non-blank filter drops it. -/
theorem descendants_claim_counterexample :
    Node.children blankOnlyRoot = [blankTextNode] ∧
    Node.recIterateOnDescendants true blankOnlyRoot = [blankTextNode] ∧
    Node.Descendants blankOnlyRoot = [] := ⟨rfl, rfl, rfl⟩

theorem recSiblings_false_eq (cs : List Node) : recIterateSiblings false cs = cs := by
  induction cs with
  | nil => rfl
  | cons c rest ih =>
      show c :: ([] ++ recIterateSiblings false rest) = c :: rest
      rw [List.nil_append, ih]

theorem sublist_recSiblings_true (cs : List Node) : List.Sublist cs (recIterateSiblings true cs) := by
  induction cs with
  | nil => simp
  | cons c rest ih =>
      show List.Sublist (c :: rest)
        (c :: (Node.recIterateOnDescendants true c ++ recIterateSiblings true rest))
      exact List.Sublist.cons₂ c (ih.trans (List.sublist_append_right _ _))

/-- C3, amended: Children(r) is a subsequence of Descendants(r) and yields
exactly the direct children of r that are not whitespace-only text nodes, in
left-to-right order, with text payloads trimmed at yield. -/
theorem children_amended (r : Node) :
    Node.Children r = (r.children.filter predicateNotBlank).map clean ∧
    List.Sublist (Node.Children r) (Node.Descendants r) := by
  cases r with
  | mk t da d ns as cs =>
      constructor
      · show ((recIterateSiblings false cs).filter predicateNotBlank).map clean
            = (cs.filter predicateNotBlank).map clean
        rw [recSiblings_false_eq]
      · show List.Sublist (((recIterateSiblings false cs).filter predicateNotBlank).map clean)
          (((recIterateSiblings true cs).filter predicateNotBlank).map clean)
        rw [recSiblings_false_eq]
        exact ((sublist_recSiblings_true cs).filter _).map _

/-- Counterexample to C3 as stated: the direct children of the root are a
blank text node followed by a p element, but Children yields only the p
element — it does not contain exactly the direct children. -/
theorem children_claim_counterexample :
    Node.children mixedRoot = [blankTextNode, pElem] ∧
    Node.Children mixedRoot = [pElem] := ⟨rfl, rfl⟩

mutual

theorem recDescExit_eq (recursive : Bool) : ∀ (n : Node) (budget : Nat),
    Node.recIterateOnDescendantsExit recursive n budget =
      ((Node.recIterateOnDescendants recursive n).take budget,
       budget - (Node.recIterateOnDescendants recursive n).length)
  | .mk _ _ _ _ _ cs, budget => recSiblingsExit_eq recursive cs budget

theorem recSiblingsExit_eq (recursive : Bool) : ∀ (cs : List Node) (budget : Nat),
    recIterateSiblingsExit recursive cs budget =
      ((recIterateSiblings recursive cs).take budget,
       budget - (recIterateSiblings recursive cs).length)
  | [], budget => by simp [recIterateSiblingsExit, recIterateSiblings]
  | _ :: _, 0 => by simp [recIterateSiblingsExit, recIterateSiblings]
  | c :: rest, budget + 1 => by
      have hinner : (if recursive then Node.recIterateOnDescendantsExit recursive c budget
            else ([], budget))
          = ((if recursive then Node.recIterateOnDescendants recursive c else []).take budget,
             budget - (if recursive then Node.recIterateOnDescendants recursive c else []).length) := by
        cases recursive
        · simp
        · simpa using recDescExit_eq true c budget
      have hrest := recSiblingsExit_eq recursive rest
        (budget - (if recursive then Node.recIterateOnDescendants recursive c else []).length)
      show (let inner := if recursive then Node.recIterateOnDescendantsExit recursive c budget
              else ([], budget)
            let after := recIterateSiblingsExit recursive rest inner.2
            (c :: (inner.1 ++ after.1), after.2))
          = ((recIterateSiblings recursive (c :: rest)).take (budget + 1),
             (budget + 1) - (recIterateSiblings recursive (c :: rest)).length)
      rw [show recIterateSiblings recursive (c :: rest)
          = c :: ((if recursive then Node.recIterateOnDescendants recursive c else []) ++
              recIterateSiblings recursive rest) from by
        cases recursive <;> rfl]
      simp only [hinner, hrest, List.take_succ_cons, List.take_append_eq_append_take,
        List.length_cons, List.length_append, Prod.mk.injEq]
      exact ⟨trivial, by omega⟩

end

/-- C4: once a select observes the cancellation signal on the exit channel
(the budget of default-branch selects is exhausted), the traversal emits
nothing further and every frame returns: the emitted sequence is exactly the
length-at-most-budget prefix of the full traversal, for every tree and every
point at which cancellation becomes observable. -/
theorem cancellation_stops_traversal (recursive : Bool) (n : Node) (budget : Nat) :
    Node.recIterateOnDescendantsExit recursive n budget =
      ((Node.recIterateOnDescendants recursive n).take budget,
       budget - (Node.recIterateOnDescendants recursive n).length) ∧
    (Node.recIterateOnDescendantsExit recursive n budget).1.length ≤ budget := by
  refine ⟨recDescExit_eq recursive n budget, ?_⟩
  rw [recDescExit_eq]
  simp [List.length_take]

/-- C9: the charset-lookup helpers return a distinct recoverable error value
for each missing-metadata condition — no head descendant, or no descendant of
head whose content attribute value contains "charset=" — and on success return
the meta node's content string (respectively the charset parsed out of it)
with no error. -/
theorem getDocCharset_lookup_cases (root : Node) :
    (NodeIterator.First (root.DescendantsByTag "head") = none →
      GetDocContentType root = .error "GetDocCharset: head not found" ∧
      GetDocCharset root = .error "GetDocCharset: head not found") ∧
    (∀ headNode, NodeIterator.First (root.DescendantsByTag "head") = some headNode →
      NodeIterator.First (headNode.DescendantsByAttrValueContaining "content" "charset=") = none →
      GetDocContentType root = .error "GetDocCharset: meta not found" ∧
      GetDocCharset root = .error "GetDocCharset: meta not found") ∧
    (∀ headNode metaNode, NodeIterator.First (root.DescendantsByTag "head") = some headNode →
      NodeIterator.First (headNode.DescendantsByAttrValueContaining "content" "charset=") = some metaNode →
      GetDocContentType root = .ok ((metaNode.Attr "content").getD "") ∧
      GetDocCharset root = .ok (parseCharsetGo ((metaNode.Attr "content").getD ""))) ∧
    (Except.error "GetDocCharset: head not found"
      ≠ (Except.error "GetDocCharset: meta not found" : Except String String)) := by
  refine ⟨?_, ?_, ?_, by simp⟩
  · intro h
    have hc : GetDocContentType root = .error "GetDocCharset: head not found" := by
      unfold GetDocContentType
      rw [h]
    exact ⟨hc, by unfold GetDocCharset; rw [hc]⟩
  · intro headNode h1 h2
    have hc : GetDocContentType root = .error "GetDocCharset: meta not found" := by
      unfold GetDocContentType
      rw [h1]
      show (match NodeIterator.First
            (headNode.DescendantsByAttrValueContaining "content" "charset=") with
        | none => Except.error "GetDocCharset: meta not found"
        | some m => Except.ok ((m.Attr "content").getD "")) =
          Except.error "GetDocCharset: meta not found"
      rw [h2]
    exact ⟨hc, by unfold GetDocCharset; rw [hc]⟩
  · intro headNode metaNode h1 h2
    have hc : GetDocContentType root = .ok ((metaNode.Attr "content").getD "") := by
      unfold GetDocContentType
      rw [h1]
      show (match NodeIterator.First
            (headNode.DescendantsByAttrValueContaining "content" "charset=") with
        | none => Except.error "GetDocCharset: meta not found"
        | some m => Except.ok ((m.Attr "content").getD "")) =
          Except.ok ((metaNode.Attr "content").getD "")
      rw [h2]
    exact ⟨hc, by unfold GetDocCharset; rw [hc]⟩

/-- Witness for C9 at a concrete document whose head holds a charset meta
element. -/
theorem getDocCharset_lookup_cases_witness :
    GetDocContentType sampleDoc = .ok "text/html; charset=utf-8" ∧
    GetDocCharset sampleDoc = .ok "utf-8" := by
  have h := (getDocCharset_lookup_cases sampleDoc).2.2.1 sampleHead sampleMeta rfl rfl
  exact ⟨h.1, h.2⟩
